import Mathlib

/-!
Verification of `timer.py`: a scoped block timer (`Timer`) and an
auto-adjusting repeated-execution timer (`AutoTimer`), plus the shared
time-unit formatting function `format_timing`.

Durations are modelled as exact rationals (`ℚ`); the Python float literals
`1e6`, `1000`, `0.2` become the rationals `1000000`, `1000`, `1/5`.
External collaborators (the clock, the garbage collector, `timeit.Timer`'s
measurement primitives, and the output channel) are modelled as explicit
parameters / traces; a Python exception raised by a measurement primitive is
an `Except.error`.  Definitions come first, then the theorems.
-/

/-- Embedding of `format_timing(timing, number_of_loops=1)` (timer.py lines
21-41): `usec = timing * 1e6 / number_of_loops`; if `usec < 1000` return
`(usec, "usec")`; else `msec = usec / 1000`; if `msec < 1000` return
`(msec, "msec")`; else return `(timing, "sec")`. -/
def format_timing (timing : ℚ) (number_of_loops : ℚ := 1) : ℚ × String :=
  let usec := timing * 1000000 / number_of_loops
  if usec < 1000 then (usec, "usec")
  else
    let msec := usec / 1000
    if msec < 1000 then (msec, "msec")
    else (timing, "sec")

/-- Exception-aware embedding of `format_timing`: Python raises
`ZeroDivisionError` at the first division `timing * 1e6 / number_of_loops`
when `number_of_loops = 0`; every other step is a non-raising float
operation.  On a nonzero loop count it agrees with `format_timing`. -/
def format_timingE (timing : ℚ) (number_of_loops : ℚ) : Except Unit (ℚ × String) :=
  if number_of_loops = 0 then .error ()
  else
    let usec := timing * 1000000 / number_of_loops
    if usec < 1000 then .ok (usec, "usec")
    else
      let msec := usec / 1000
      if msec < 1000 then .ok (msec, "msec")
      else .ok (timing, "sec")

/-! ## Scoped Timer (`Timer` context manager, timer.py lines 44-93)

The process-wide state touched by `Timer` is the garbage collector's
enabled flag together with the monotonic clock.  The clock is modelled as a
function `clock : ℕ → ℚ` from read-index to reading; `SysState.tick` counts
how many reads have happened.  The body of the `with` block is abstract: it
may let time pass (`bodyTicks` clock reads by other code) and may finish
normally or raise (`Except E Unit`); it does not touch the collector flag. -/

/-- Process-wide mutable state visible to `Timer`. -/
structure SysState where
  gcEnabled : Bool
  tick : ℕ
deriving DecidableEq

/-- Constructor configuration of `Timer.__init__(msg, log_func, disable_gc,
precision)`: `label` is `msg`, `hasLog` records whether a `log_func` sink was
supplied. -/
structure TimerCfg where
  label : String
  hasLog : Bool
  disable_gc : Bool
  precision : ℕ

/-- The message template built in `Timer.__init__`:
`"Executed '%s' in:" % msg if msg else 'Executed in:'` followed by
`' %.*g %s'`. -/
def timerMsg (label : String) : String :=
  (if label = "" then "Executed in:" else "Executed \x27" ++ label ++ "\x27 in:") ++
    " %.*g %s"

/-- Instance state captured by `Timer.__enter__`: the prior collector flag
(`self.gc_state`, only assigned when `disable_gc`; `false` stands for the
unassigned attribute, which `__exit__` never reads in that case) and the
start timestamp. -/
structure TimerRT where
  gc_state : Bool
  start : ℚ

/-- A single report emitted by `Timer.__exit__`: either a call to the
configured sink `log_func(msg, precision, interval, unit)` or the default
`print(msg % (precision, interval, unit))`.  The `%`-rendering of the
template is kept symbolic: the event carries exactly the template and the
arguments. -/
inductive TimerEvent
  | logCall (msgTemplate : String) (precision : ℕ) (value : ℚ) (unit : String)
  | printLine (msgTemplate : String) (precision : ℕ) (value : ℚ) (unit : String)
deriving DecidableEq

/-- Embedding of `Timer.__enter__` (lines 76-81): if `disable_gc`, capture
`gc.isenabled()` and call `gc.disable()`; then read the start timestamp. -/
def timerEnter (clock : ℕ → ℚ) (cfg : TimerCfg) (s : SysState) : TimerRT × SysState :=
  let gcSt := if cfg.disable_gc then s.gcEnabled else false
  let s1 := if cfg.disable_gc then { s with gcEnabled := false } else s
  let start := clock s1.tick
  (⟨gcSt, start⟩, { s1 with tick := s1.tick + 1 })

/-- Result of `Timer.__exit__`. -/
structure ExitOut where
  final : SysState
  seconds : ℚ
  event : TimerEvent

/-- Embedding of `Timer.__exit__` (lines 83-93): read the end timestamp;
re-enable the collector iff `disable_gc and gc_state`; compute
`seconds = end - start`; format with loop count 1; report through the sink
when one is configured, otherwise print. -/
def timerExit (clock : ℕ → ℚ) (cfg : TimerCfg) (rt : TimerRT) (s : SysState) : ExitOut :=
  let endT := clock s.tick
  let s1 : SysState := { s with tick := s.tick + 1 }
  let s2 := if cfg.disable_gc && rt.gc_state then { s1 with gcEnabled := true } else s1
  let seconds := endT - rt.start
  let fu := format_timing seconds 1
  let ev := if cfg.hasLog then TimerEvent.logCall (timerMsg cfg.label) cfg.precision fu.1 fu.2
            else TimerEvent.printLine (timerMsg cfg.label) cfg.precision fu.1 fu.2
  ⟨s2, seconds, ev⟩

/-- Outcome of a whole `with Timer(...)` block. -/
structure RunOut (E : Type) where
  final : SysState
  seconds : ℚ
  events : List TimerEvent
  result : Except E Unit

/-- Embedding of the `with Timer(...) : body` statement: `__enter__`, then
the body (which advances the clock by `bodyTicks` reads and finishes with
`bodyResult`), then `__exit__` unconditionally — Python runs `__exit__` on
both the normal and the exceptional path, and since `__exit__` returns
`None` the body's exception then propagates unchanged. -/
def runTimer {E : Type} (clock : ℕ → ℚ) (cfg : TimerCfg) (bodyTicks : ℕ)
    (bodyResult : Except E Unit) (s0 : SysState) : RunOut E :=
  let (rt, s1) := timerEnter clock cfg s0
  let s2 : SysState := { s1 with tick := s1.tick + bodyTicks }
  let eo := timerExit clock cfg rt s2
  ⟨eo.final, eo.seconds, [eo.event], bodyResult⟩

/-! ## Auto-Calibrating Timer (`AutoTimer.auto`, timer.py lines 120-151)

`AutoTimer` subclasses `timeit.Timer`; the inherited measurement primitives
are external collaborators modelled as oracle functions: `timeitFn n` stands
for `self.timeit(n)` — run the target `n` times and return the total elapsed
seconds, or raise — and `repeatFn r n` stands for `self.repeat(r, n)` — run
`r` independent trials of `n` executions each, returning the list of trial
totals, or raise.  `auto`'s printing (including `self.print_exc()`) is
modelled as a trace of structured events, and the loop counts handed to the
collaborators are recorded as call traces. -/

/-- Oracle environment for one invocation of `AutoTimer.auto`. -/
structure AutoEnv where
  timeitFn : ℕ → Except Unit ℚ
  repeatFn : ℕ → ℕ → Except Unit (List ℚ)

/-- One line of output of `AutoTimer.auto`: the per-probe
`"%d loops -> %.*g secs"` line, the `self.print_exc()` diagnostic, the
`"raw times: ..."` line, and the final
`"%d loops, best of %d: %.*g %s per loop"` summary.  `%`-rendering is kept
symbolic: each event carries the data fed to the format string. -/
inductive AutoEvent
  | probeLine (loops : ℕ) (precision : ℕ) (secs : ℚ)
  | diagnostic
  | rawTimes (precision : ℕ) (times : List ℚ)
  | summary (loops : ℕ) (repCount : ℕ) (precision : ℕ) (timing : ℚ) (unit : String)
deriving DecidableEq

/-- Result of the probe loop `for i in range(1, 10)`: output so far, the
loop counts passed to `self.timeit`, and `some number_of_loops` on normal
completion or `none` when the target raised (the `return 1` path). -/
structure ProbeOut where
  output : List AutoEvent
  calls : List ℕ
  result : Option ℕ
deriving DecidableEq

/-- Embedding of the probe loop body starting at exponent `i` with `fuel`
exponents left (the source runs `i = 1, ..., 9`, so `fuel = 10 - i`):
`number_of_loops = 10**i`; `self.timeit(number_of_loops)`, returning on an
exception after `self.print_exc()`; the verbose probe line; `break` once
`execution_time >= 0.2`.  `nLast` is the value `number_of_loops` retains
when the range is exhausted. -/
def probeAux (env : AutoEnv) (verbose : Bool) (precision : ℕ) :
    ℕ → ℕ → ℕ → ProbeOut
  | 0, _, nLast => ⟨[], [], some nLast⟩
  | fuel + 1, i, _ =>
      let n := 10 ^ i
      match env.timeitFn n with
      | .error _ => ⟨[.diagnostic], [n], none⟩
      | .ok t =>
          let line := if verbose then [AutoEvent.probeLine n precision t] else []
          if (1/5 : ℚ) ≤ t then ⟨line, [n], some n⟩
          else
            let rest := probeAux env verbose precision fuel (i + 1) n
            ⟨line ++ rest.output, n :: rest.calls, rest.result⟩

/-- The whole probe phase: exponents `1..9`, with `number_of_loops`
initialised to `0`. -/
def probePhase (env : AutoEnv) (verbose : Bool) (precision : ℕ) : ProbeOut :=
  probeAux env verbose precision 9 1 0

/-- `min(r)` on a nonempty Python list of floats (`min []` raises, a path
the source only reaches with `repeat = 0`; theorems about it carry a
nonemptiness hypothesis). -/
def listMin : List ℚ → ℚ
  | [] => 0
  | [x] => x
  | x :: y :: xs => min x (listMin (y :: xs))

/-- Result of `AutoTimer.auto`: the returned value (`best`, or the sentinel
`1`), the output trace, and the arguments passed to `self.timeit` and
`self.repeat`. -/
structure AutoOut where
  ret : ℚ
  output : List AutoEvent
  timeitCalls : List ℕ
  repeatCalls : List (ℕ × ℕ)
deriving DecidableEq

/-- Embedding of `AutoTimer.auto(repeat=3, verbose=True, precision=3)`
(lines 120-151): run the probe phase; on its exception path return `1`;
otherwise `r = self.repeat(repCount, number_of_loops)`, returning `1` after
a diagnostic if that raises; `best = min(r)`;
`timing, unit = format_timing(best, number_of_loops)`; the verbose raw-times
line; the summary line; return `best`. -/
def auto (env : AutoEnv) (repCount : ℕ := 3) (verbose : Bool := true)
    (precision : ℕ := 3) : AutoOut :=
  let pr := probePhase env verbose precision
  match pr.result with
  | none => ⟨1, pr.output, pr.calls, []⟩
  | some number_of_loops =>
      match env.repeatFn repCount number_of_loops with
      | .error _ =>
          ⟨1, pr.output ++ [.diagnostic], pr.calls, [(repCount, number_of_loops)]⟩
      | .ok r =>
          let best := listMin r
          let fu := format_timing best (number_of_loops : ℚ)
          let raw := if verbose then [AutoEvent.rawTimes precision r] else []
          ⟨best,
           pr.output ++ raw ++ [.summary number_of_loops repCount precision fu.1 fu.2],
           pr.calls, [(repCount, number_of_loops)]⟩

/-- Oracle environment whose first probe already crosses the 0.2 s threshold
and whose three repeat trials take 3, 1 and 2 seconds. -/
def envQuick : AutoEnv := ⟨fun _ => .ok 1, fun _ _ => .ok [3, 1, 2]⟩

/-- Oracle environment whose target raises on the very first measurement. -/
def envRaise : AutoEnv := ⟨fun _ => .error (), fun _ _ => .ok [1]⟩

/-- Oracle environment where probing succeeds at once but every repeat trial
raises. -/
def envTrialRaise : AutoEnv := ⟨fun _ => .ok 1, fun _ _ => .error ()⟩

/-- Claim C1: for every duration `d ≥ 0` and loop count `n ≥ 1`,
`format_timing d n` returns `(d*1e6/n, "usec")` iff `d*1e6/n < 1000`;
returns `(d*1e6/n/1000, "msec")` iff `1000 ≤ d*1e6/n < 1e6`; and otherwise
(`d*1e6/n ≥ 1e6`) returns the original unscaled duration `d` paired with
`"sec"`.  In particular `format_timing 0.0005 = (500, "usec")`,
`format_timing 1.5 = (1.5, "sec")`, and `format_timing 0.0025 1 = (2.5, "msec")`. -/
theorem format_timing_branches (d n : ℚ) (hd : 0 ≤ d) (hn : 1 ≤ n) :
    (format_timing d n = (d * 1000000 / n, "usec") ↔ d * 1000000 / n < 1000) ∧
    (format_timing d n = (d * 1000000 / n / 1000, "msec") ↔
      1000 ≤ d * 1000000 / n ∧ d * 1000000 / n < 1000000) ∧
    (1000000 ≤ d * 1000000 / n → format_timing d n = (d, "sec")) ∧
    format_timing (1/2000) 1 = (500, "usec") ∧
    format_timing (3/2) 1 = (3/2, "sec") ∧
    format_timing (1/400) 1 = (5/2, "msec") := by
  have hexamples :
      format_timing (1/2000) 1 = (500, "usec") ∧
      format_timing (3/2) 1 = (3/2, "sec") ∧
      format_timing (1/400) 1 = (5/2, "msec") := by
    refine ⟨?_, ?_, ?_⟩ <;> · simp only [format_timing]; norm_num
  refine ⟨?_, ?_, ?_, hexamples.1, hexamples.2.1, hexamples.2.2⟩
  · constructor
    · intro h
      by_contra hlt
      push_neg at hlt
      simp only [format_timing] at h
      rw [if_neg (by push_neg; exact hlt)] at h
      by_cases hm : d * 1000000 / n / 1000 < 1000
      · rw [if_pos hm] at h
        exact absurd (congrArg Prod.snd h) (by simp)
      · rw [if_neg hm] at h
        exact absurd (congrArg Prod.snd h) (by simp)
    · intro h
      simp only [format_timing]
      rw [if_pos h]
  · constructor
    · intro h
      simp only [format_timing] at h
      by_cases hu : d * 1000000 / n < 1000
      · rw [if_pos hu] at h
        exact absurd (congrArg Prod.snd h) (by simp)
      · push_neg at hu
        rw [if_neg (by push_neg; exact hu)] at h
        by_cases hm : d * 1000000 / n / 1000 < 1000
        · refine ⟨hu, ?_⟩
          have : d * 1000000 / n / 1000 < 1000 := hm
          linarith [this]
        · rw [if_neg hm] at h
          exact absurd (congrArg Prod.snd h) (by simp)
    · rintro ⟨h1, h2⟩
      simp only [format_timing]
      rw [if_neg (by push_neg; exact h1), if_pos (by linarith)]
  · intro h
    simp only [format_timing]
    rw [if_neg (by push_neg; linarith), if_neg (by push_neg; linarith)]

/-- Concrete instance of `format_timing_branches` at `d = 0.0005`, `n = 1`. -/
theorem format_timing_branches_witness :
    format_timing (1/2000) 1 = (500, "usec") :=
  (format_timing_branches (1/2000) 1 (by norm_num) (by norm_num)).2.2.2.1

/-- Claim C8: the unit formatter is total for every non-negative duration and loop
count `n ≥ 1`: the exception-aware embedding raises nothing and returns the
pure result, whose unit label is one of `"usec"`, `"msec"`, `"sec"`.  Purity
(no state mutation) is structural: `format_timing` is a function of its two
arguments only. -/
theorem format_timing_total (d n : ℚ) (hd : 0 ≤ d) (hn : 1 ≤ n) :
    format_timingE d n = .ok (format_timing d n) ∧
    ((format_timing d n).2 = "usec" ∨ (format_timing d n).2 = "msec" ∨
      (format_timing d n).2 = "sec") := by
  have hn0 : n ≠ 0 := by positivity
  constructor
  · simp only [format_timingE, format_timing, if_neg hn0]
    split <;> [rfl; split <;> rfl]
  · simp only [format_timing]
    by_cases h1 : d * 1000000 / n < 1000
    · rw [if_pos h1]; left; rfl
    · rw [if_neg h1]
      by_cases h2 : d * 1000000 / n / 1000 < 1000
      · rw [if_pos h2]; right; left; rfl
      · rw [if_neg h2]; right; right; rfl

/-- Concrete instance of `format_timing_total` at `d = 1`, `n = 1`. -/
theorem format_timing_total_witness :
    format_timingE 1 1 = .ok (format_timing 1 1) :=
  (format_timing_total 1 1 (by norm_num) (by norm_num)).1

/-- Claim C9: calling `format_timing` with `number_of_loops = 0` raises
(`ZeroDivisionError` at the first division) for every timing value, instead
of returning a `(value, unit)` pair. -/
theorem format_timingE_zero_loops (d : ℚ) : format_timingE d 0 = .error () := by
  simp [format_timingE]

/-- Claim C5: with `disable_gc` enabled, the collector's enabled flag after
the `with` block equals its value before entry — restored to enabled exactly
when it was previously enabled — for every body outcome, normal or raising
(`bodyResult` is arbitrary); with `disable_gc` off, neither `__enter__` nor
`__exit__` ever writes the flag. -/
theorem timer_gc_restore {E : Type} (clock : ℕ → ℚ) (cfg : TimerCfg) (bodyTicks : ℕ)
    (bodyResult : Except E Unit) (s0 : SysState) :
    (runTimer clock cfg bodyTicks bodyResult s0).final.gcEnabled = s0.gcEnabled ∧
    (cfg.disable_gc = false →
      ∀ s : SysState, (timerEnter clock cfg s).2.gcEnabled = s.gcEnabled ∧
        ∀ rt : TimerRT, (timerExit clock cfg rt s).final.gcEnabled = s.gcEnabled) := by
  constructor
  · simp only [runTimer, timerEnter, timerExit]
    by_cases hdg : cfg.disable_gc
    · simp only [hdg]
      by_cases hgc : s0.gcEnabled <;> simp [hgc]
    · simp [hdg]
  · intro hdg s
    constructor
    · simp [timerEnter, hdg]
    · intro rt
      simp [timerExit, hdg]

/-- Concrete instance of `timer_gc_restore`: with the collector initially
enabled and `disable_gc` on, the flag is enabled again after the block even
though the body raised. -/
theorem timer_gc_restore_witness :
    (runTimer (fun t => (t : ℚ)) ⟨"", false, true, 3⟩ 5 (Except.error 7) ⟨true, 0⟩).final.gcEnabled
      = (⟨true, 0⟩ : SysState).gcEnabled :=
  (timer_gc_restore (fun t => (t : ℚ)) ⟨"", false, true, 3⟩ 5 (Except.error 7) ⟨true, 0⟩).1

/-- Claim C6: an exception raised inside the timed region propagates to the
caller unmodified (the run's result is exactly the body's outcome, error
value included), and the `__exit__` bookkeeping produces its report exactly
once on every exit path, normal or exceptional, before propagation. -/
theorem timer_exception_propagation {E : Type} (clock : ℕ → ℚ) (cfg : TimerCfg)
    (bodyTicks : ℕ) (e : E) (s0 : SysState) :
    (runTimer clock cfg bodyTicks (Except.error e) s0).result = Except.error e ∧
    ∀ bodyResult : Except E Unit,
      (runTimer clock cfg bodyTicks bodyResult s0).result = bodyResult ∧
      (runTimer clock cfg bodyTicks bodyResult s0).events.length = 1 := by
  refine ⟨rfl, fun bodyResult => ⟨rfl, rfl⟩⟩

/-- Claim C7: `Timer.__exit__` computes `seconds = end - start` where `end`
is the clock reading taken on exit, formats it via `format_timing` with loop
count 1, and reports with the template `"Executed '<label>' in: %.*g %s"`
(or `"Executed in: %.*g %s"` without a label, the precision rendered by the
`%.*g` directive): a configured sink receives exactly
`(template, precision, scaled value, unit)`, and otherwise the same data
goes to the default print channel. -/
theorem timer_exit_report (clock : ℕ → ℚ) (cfg : TimerCfg) (rt : TimerRT) (s : SysState) :
    (timerExit clock cfg rt s).seconds = clock s.tick - rt.start ∧
    (cfg.hasLog = true →
      (timerExit clock cfg rt s).event =
        TimerEvent.logCall (timerMsg cfg.label) cfg.precision
          (format_timing (clock s.tick - rt.start) 1).1
          (format_timing (clock s.tick - rt.start) 1).2) ∧
    (cfg.hasLog = false →
      (timerExit clock cfg rt s).event =
        TimerEvent.printLine (timerMsg cfg.label) cfg.precision
          (format_timing (clock s.tick - rt.start) 1).1
          (format_timing (clock s.tick - rt.start) 1).2) ∧
    (cfg.label = "" → timerMsg cfg.label = "Executed in: %.*g %s") ∧
    (cfg.label ≠ "" →
      timerMsg cfg.label = "Executed \x27" ++ cfg.label ++ "\x27 in: %.*g %s") := by
  refine ⟨rfl, ?_, ?_, ?_, ?_⟩
  · intro h; simp [timerExit, h]
  · intro h; simp [timerExit, h]
  · intro h; simp [timerMsg, h]
  · intro h; simp [timerMsg, h, String.append_assoc]

/-- Concrete instance of `timer_exit_report`: a sink configured with label
`"f"` receives the labelled template, the precision, and the formatted
interval. -/
theorem timer_exit_report_witness :
    (timerExit (fun t => (t : ℚ)) ⟨"f", true, true, 3⟩ ⟨true, 0⟩ ⟨false, 1⟩).event =
      TimerEvent.logCall (timerMsg "f") 3
        (format_timing ((1 : ℚ) - 0) 1).1 (format_timing ((1 : ℚ) - 0) 1).2 :=
  ((timer_exit_report (fun t => (t : ℚ)) ⟨"f", true, true, 3⟩ ⟨true, 0⟩ ⟨false, 1⟩).2.1) rfl

/-! ### Helper lemmas on `listMin` and `probeAux` -/

lemma listMin_mem : ∀ r : List ℚ, r ≠ [] → listMin r ∈ r
  | [], h => absurd rfl h
  | [x], _ => by simp [listMin]
  | x :: y :: xs, _ => by
      have ih := listMin_mem (y :: xs) (List.cons_ne_nil y xs)
      simp only [listMin]
      rcases le_total x (listMin (y :: xs)) with h | h
      · rw [min_eq_left h]; exact List.mem_cons_self x _
      · rw [min_eq_right h]; exact List.mem_cons_of_mem x ih

lemma listMin_le : ∀ (r : List ℚ) (x : ℚ), x ∈ r → listMin r ≤ x
  | [], x, hx => absurd hx (List.not_mem_nil x)
  | [a], x, hx => by
      rw [List.mem_singleton] at hx
      simp [listMin, hx]
  | a :: b :: xs, x, hx => by
      simp only [listMin]
      rcases List.mem_cons.mp hx with h | h
      · subst h; exact min_le_left _ _
      · exact le_trans (min_le_right _ _) (listMin_le (b :: xs) x h)

lemma probeAux_succ (env : AutoEnv) (v : Bool) (p fuel i nLast : ℕ) :
    probeAux env v p (fuel + 1) i nLast =
      match env.timeitFn (10 ^ i) with
      | .error _ => ⟨[.diagnostic], [10 ^ i], none⟩
      | .ok t =>
          let line := if v then [AutoEvent.probeLine (10 ^ i) p t] else []
          if (1/5 : ℚ) ≤ t then ⟨line, [10 ^ i], some (10 ^ i)⟩
          else
            let rest := probeAux env v p fuel (i + 1) (10 ^ i)
            ⟨line ++ rest.output, 10 ^ i :: rest.calls, rest.result⟩ := rfl

lemma probeAux_succ_error (env : AutoEnv) (v : Bool) (p fuel i nLast : ℕ)
    (h : env.timeitFn (10 ^ i) = .error ()) :
    probeAux env v p (fuel + 1) i nLast = ⟨[.diagnostic], [10 ^ i], none⟩ := by
  rw [probeAux_succ, h]

lemma probeAux_succ_ok_hit (env : AutoEnv) (v : Bool) (p fuel i nLast : ℕ) (t : ℚ)
    (h : env.timeitFn (10 ^ i) = .ok t) (ht : (1/5 : ℚ) ≤ t) :
    probeAux env v p (fuel + 1) i nLast =
      ⟨if v then [AutoEvent.probeLine (10 ^ i) p t] else [], [10 ^ i], some (10 ^ i)⟩ := by
  rw [probeAux_succ, h]
  simp only [if_pos ht]

lemma probeAux_succ_ok_low (env : AutoEnv) (v : Bool) (p fuel i nLast : ℕ) (t : ℚ)
    (h : env.timeitFn (10 ^ i) = .ok t) (ht : t < (1/5 : ℚ)) :
    probeAux env v p (fuel + 1) i nLast =
      ⟨(if v then [AutoEvent.probeLine (10 ^ i) p t] else []) ++
          (probeAux env v p fuel (i + 1) (10 ^ i)).output,
        10 ^ i :: (probeAux env v p fuel (i + 1) (10 ^ i)).calls,
        (probeAux env v p fuel (i + 1) (10 ^ i)).result⟩ := by
  rw [probeAux_succ, h]
  simp only [if_neg (not_le.mpr ht)]

lemma probeAux_output_events (env : AutoEnv) (v : Bool) (p : ℕ) :
    ∀ (fuel i nLast : ℕ), ∀ e ∈ (probeAux env v p fuel i nLast).output,
      (∃ a b c, e = AutoEvent.probeLine a b c) ∨ e = AutoEvent.diagnostic := by
  intro fuel
  induction fuel with
  | zero => intro i nLast e he; simp [probeAux] at he
  | succ f ih =>
      intro i nLast e he
      cases hcall : env.timeitFn (10 ^ i) with
      | error u =>
          rw [probeAux_succ_error env v p f i nLast (by rw [hcall])] at he
          simp only [List.mem_singleton] at he
          exact Or.inr he
      | ok t =>
          by_cases hth : (1/5 : ℚ) ≤ t
          · rw [probeAux_succ_ok_hit env v p f i nLast t hcall hth] at he
            by_cases hv : v
            · simp only [if_pos hv, List.mem_singleton] at he
              exact Or.inl ⟨_, _, _, he⟩
            · simp [if_neg hv] at he
          · rw [probeAux_succ_ok_low env v p f i nLast t hcall (not_le.mp hth)] at he
            simp only [List.mem_append] at he
            rcases he with he | he
            · by_cases hv : v
              · simp only [if_pos hv, List.mem_singleton] at he
                exact Or.inl ⟨_, _, _, he⟩
              · simp [if_neg hv] at he
            · exact ih (i + 1) (10 ^ i) e he

lemma probeAux_all_low (env : AutoEnv) (v : Bool) (p : ℕ) (ts : ℕ → ℚ) :
    ∀ (fuel i nLast : ℕ),
      (∀ k, i ≤ k → k < i + fuel → env.timeitFn (10 ^ k) = .ok (ts k) ∧ ts k < 1/5) →
      (probeAux env v p fuel i nLast).result =
        some (if fuel = 0 then nLast else 10 ^ (i + fuel - 1)) ∧
      (probeAux env v p fuel i nLast).calls =
        (List.range' i fuel).map (fun k => 10 ^ k) := by
  intro fuel
  induction fuel with
  | zero => intro i nLast h; simp [probeAux]
  | succ f ih =>
      intro i nLast h
      obtain ⟨hok, hlow⟩ := h i (le_refl i) (by omega)
      rw [probeAux_succ_ok_low env v p f i nLast (ts i) hok hlow]
      obtain ⟨ihr, ihc⟩ := ih (i + 1) (10 ^ i) (fun k hk1 hk2 => h k (by omega) (by omega))
      refine ⟨?_, ?_⟩
      · show (probeAux env v p f (i + 1) (10 ^ i)).result = _
        rw [ihr]
        by_cases hf : f = 0
        · subst hf; norm_num
        · rw [if_neg hf, if_neg (by omega : ¬ f + 1 = 0)]
          congr 2
          omega
      · show 10 ^ i :: (probeAux env v p f (i + 1) (10 ^ i)).calls = _
        rw [ihc, List.range'_succ, List.map_cons]

lemma probeAux_first_hit (env : AutoEnv) (v : Bool) (p : ℕ) (ts : ℕ → ℚ) :
    ∀ (fuel i nLast j : ℕ), i ≤ j → j < i + fuel →
      (∀ k, i ≤ k → k < j → env.timeitFn (10 ^ k) = .ok (ts k) ∧ ts k < 1/5) →
      env.timeitFn (10 ^ j) = .ok (ts j) → (1/5 : ℚ) ≤ ts j →
      (probeAux env v p fuel i nLast).result = some (10 ^ j) ∧
      (probeAux env v p fuel i nLast).calls =
        (List.range' i (j - i + 1)).map (fun k => 10 ^ k) := by
  intro fuel
  induction fuel with
  | zero => intro i nLast j hij hj _ _ _; omega
  | succ f ih =>
      intro i nLast j hij hj hlow hok hhit
      rcases eq_or_lt_of_le hij with heq | hlt
      · subst heq
        rw [probeAux_succ_ok_hit env v p f i nLast (ts i) hok hhit]
        refine ⟨rfl, ?_⟩
        simp [List.range'_succ]
      · obtain ⟨hoki, hlowi⟩ := hlow i (le_refl i) hlt
        rw [probeAux_succ_ok_low env v p f i nLast (ts i) hoki hlowi]
        obtain ⟨ihr, ihc⟩ := ih (i + 1) (10 ^ i) j (by omega) (by omega)
          (fun k h1 h2 => hlow k (by omega) h2) hok hhit
        refine ⟨ihr, ?_⟩
        show 10 ^ i :: (probeAux env v p f (i + 1) (10 ^ i)).calls = _
        rw [ihc]
        conv_rhs => rw [show j - i + 1 = (j - (i + 1) + 1) + 1 by omega, List.range'_succ]
        rw [List.map_cons]

lemma probeAux_error_first (env : AutoEnv) (v : Bool) (p : ℕ) (ts : ℕ → ℚ) :
    ∀ (fuel i nLast j : ℕ), i ≤ j → j < i + fuel →
      (∀ k, i ≤ k → k < j → env.timeitFn (10 ^ k) = .ok (ts k) ∧ ts k < 1/5) →
      env.timeitFn (10 ^ j) = .error () →
      (probeAux env v p fuel i nLast).result = none ∧
      (probeAux env v p fuel i nLast).calls =
        (List.range' i (j - i + 1)).map (fun k => 10 ^ k) ∧
      AutoEvent.diagnostic ∈ (probeAux env v p fuel i nLast).output := by
  intro fuel
  induction fuel with
  | zero => intro i nLast j hij hj _ _; omega
  | succ f ih =>
      intro i nLast j hij hj hlow herr
      rcases eq_or_lt_of_le hij with heq | hlt
      · subst heq
        rw [probeAux_succ_error env v p f i nLast herr]
        refine ⟨rfl, ?_, List.mem_singleton.mpr rfl⟩
        simp [List.range'_succ]
      · obtain ⟨hoki, hlowi⟩ := hlow i (le_refl i) hlt
        rw [probeAux_succ_ok_low env v p f i nLast (ts i) hoki hlowi]
        obtain ⟨ihr, ihc, ihd⟩ := ih (i + 1) (10 ^ i) j (by omega) (by omega)
          (fun k h1 h2 => hlow k (by omega) h2) herr
        refine ⟨ihr, ?_, ?_⟩
        · show 10 ^ i :: (probeAux env v p f (i + 1) (10 ^ i)).calls = _
          rw [ihc]
          conv_rhs => rw [show j - i + 1 = (j - (i + 1) + 1) + 1 by omega, List.range'_succ]
          rw [List.map_cons]
        · show AutoEvent.diagnostic ∈ _ ++ (probeAux env v p f (i + 1) (10 ^ i)).output
          exact List.mem_append_right _ ihd

lemma auto_eq_none (env : AutoEnv) (repCount : ℕ) (v : Bool) (p : ℕ)
    (h : (probePhase env v p).result = none) :
    auto env repCount v p =
      ⟨1, (probePhase env v p).output, (probePhase env v p).calls, []⟩ := by
  simp only [auto, h]

lemma auto_eq_error (env : AutoEnv) (repCount : ℕ) (v : Bool) (p n : ℕ)
    (h : (probePhase env v p).result = some n)
    (h2 : env.repeatFn repCount n = .error ()) :
    auto env repCount v p =
      ⟨1, (probePhase env v p).output ++ [.diagnostic], (probePhase env v p).calls,
        [(repCount, n)]⟩ := by
  simp only [auto, h, h2]

lemma auto_eq_ok (env : AutoEnv) (repCount : ℕ) (v : Bool) (p n : ℕ) (r : List ℚ)
    (h : (probePhase env v p).result = some n)
    (h2 : env.repeatFn repCount n = .ok r) :
    auto env repCount v p =
      ⟨listMin r,
        (probePhase env v p).output ++ (if v then [AutoEvent.rawTimes p r] else []) ++
          [.summary n repCount p (format_timing (listMin r) (n : ℚ)).1
            (format_timing (listMin r) (n : ℚ)).2],
        (probePhase env v p).calls, [(repCount, n)]⟩ := by
  simp only [auto, h, h2]

/-- Claim C2: in `AutoTimer.auto`'s probe phase the candidate loop count for
exponent `i` in `1..9` is exactly `10^i` — the calls trace records the loop
counts handed to the measurement collaborator `timeitFn`, where `timeitFn n`
stands for `self.timeit(n)`: run the target exactly `n` times — and probing
stops at the first exponent `j` whose measured time reaches `0.2` s, having
probed exactly `10^1, ..., 10^j`; if every exponent up to 9 stays below the
threshold, probing stops at 9 and `10^9` is the loop count handed to the
repeat phase. -/
theorem probe_calibration (env : AutoEnv) (repCount : ℕ) (v : Bool) (p : ℕ)
    (ts : ℕ → ℚ) (j : ℕ) (h1j : 1 ≤ j) (hj9 : j ≤ 9) :
    ((∀ k, 1 ≤ k → k < j → env.timeitFn (10 ^ k) = .ok (ts k) ∧ ts k < 1/5) →
      env.timeitFn (10 ^ j) = .ok (ts j) → (1/5 : ℚ) ≤ ts j →
      (probePhase env v p).result = some (10 ^ j) ∧
      (probePhase env v p).calls = (List.range' 1 j).map (fun k => 10 ^ k)) ∧
    ((∀ k, 1 ≤ k → k ≤ 9 → env.timeitFn (10 ^ k) = .ok (ts k) ∧ ts k < 1/5) →
      (probePhase env v p).result = some (10 ^ 9) ∧
      (probePhase env v p).calls = (List.range' 1 9).map (fun k => 10 ^ k) ∧
      (auto env repCount v p).repeatCalls = [(repCount, 10 ^ 9)]) := by
  constructor
  · intro hlow hok hhit
    have h := probeAux_first_hit env v p ts 9 1 0 j h1j (by omega) hlow hok hhit
    rw [show j - 1 + 1 = j by omega] at h
    exact h
  · intro hall
    have h := probeAux_all_low env v p ts 9 1 0 (fun k hk1 hk2 => hall k hk1 (by omega))
    have hres : (probePhase env v p).result = some (10 ^ 9) := h.1
    refine ⟨hres, h.2, ?_⟩
    cases hrf : env.repeatFn repCount (10 ^ 9) with
    | error u => cases u; rw [auto_eq_error env repCount v p (10 ^ 9) hres hrf]
    | ok r => rw [auto_eq_ok env repCount v p (10 ^ 9) r hres hrf]

/-- Concrete instance of `probe_calibration` with an environment whose first
probe takes a full second: probing stops at exponent 1 having called the
target with loop count `10` only. -/
theorem probe_calibration_witness :
    (probePhase envQuick true 3).result = some (10 ^ 1) ∧
    (probePhase envQuick true 3).calls = (List.range' 1 1).map (fun k => 10 ^ k) :=
  (probe_calibration envQuick 3 true 3 (fun _ => 1) 1 (le_refl 1) (by norm_num)).1
    (fun k hk1 hk2 => absurd hk2 (by omega)) rfl (by norm_num)

/-- Claim C3: when no trial raises, `AutoTimer.auto` returns the minimum of
the `repeat` per-trial total durations, unscaled: the return value is
`min(r)` itself (an element of `r` below every element), while the printed
summary line carries the scaled value computed by
`format_timing(best, number_of_loops)`. -/
theorem auto_returns_min (env : AutoEnv) (repCount : ℕ) (v : Bool) (p n : ℕ)
    (r : List ℚ) (hpr : (probePhase env v p).result = some n)
    (hr : env.repeatFn repCount n = .ok r) (hne : r ≠ []) :
    (auto env repCount v p).ret = listMin r ∧
    listMin r ∈ r ∧ (∀ x ∈ r, listMin r ≤ x) ∧
    AutoEvent.summary n repCount p (format_timing (listMin r) (n : ℚ)).1
        (format_timing (listMin r) (n : ℚ)).2 ∈ (auto env repCount v p).output := by
  rw [auto_eq_ok env repCount v p n r hpr hr]
  refine ⟨rfl, listMin_mem r hne, fun x hx => listMin_le r x hx, ?_⟩
  exact List.mem_append_right _ (List.mem_singleton.mpr rfl)

/-- Concrete instance of `auto_returns_min`: trials of 3, 1 and 2 seconds
yield the raw minimum 1. -/
theorem auto_returns_min_witness :
    (auto envQuick 3 true 3).ret = listMin [3, 1, 2] :=
  (auto_returns_min envQuick 3 true 3 10 [3, 1, 2]
    (by rw [probePhase, show (9 : ℕ) = 8 + 1 from rfl,
          probeAux_succ_ok_hit envQuick true 3 8 1 0 1 rfl (by norm_num)]
        rfl)
    rfl (by simp)).1

/-- Claim C4: if the target raises during the probe phase (first failing
exponent `j`, every earlier probe below the threshold) or during the repeat
phase, `AutoTimer.auto` emits the `print_exc` diagnostic and returns the
sentinel `1`; the embedding of `auto` is a total function, so the exception
never propagates to the caller. -/
theorem auto_target_raises (env : AutoEnv) (repCount : ℕ) (v : Bool) (p : ℕ)
    (ts : ℕ → ℚ) (j n : ℕ) (h1j : 1 ≤ j) (hj9 : j ≤ 9) :
    ((∀ k, 1 ≤ k → k < j → env.timeitFn (10 ^ k) = .ok (ts k) ∧ ts k < 1/5) →
      env.timeitFn (10 ^ j) = .error () →
      (auto env repCount v p).ret = 1 ∧
      AutoEvent.diagnostic ∈ (auto env repCount v p).output) ∧
    ((probePhase env v p).result = some n → env.repeatFn repCount n = .error () →
      (auto env repCount v p).ret = 1 ∧
      AutoEvent.diagnostic ∈ (auto env repCount v p).output) := by
  constructor
  · intro hlow herr
    obtain ⟨hres, _, hdiag⟩ :=
      probeAux_error_first env v p ts 9 1 0 j h1j (by omega) hlow herr
    rw [auto_eq_none env repCount v p hres]
    exact ⟨rfl, hdiag⟩
  · intro hpr hre
    rw [auto_eq_error env repCount v p n hpr hre]
    exact ⟨rfl, List.mem_append_right _ (List.mem_singleton.mpr rfl)⟩

/-- Concrete instance of `auto_target_raises`: a target that raises on the
first measurement makes `auto` return the sentinel `1` with a diagnostic. -/
theorem auto_target_raises_witness :
    (auto envRaise 3 true 3).ret = 1 ∧
    AutoEvent.diagnostic ∈ (auto envRaise 3 true 3).output :=
  (auto_target_raises envRaise 3 true 3 (fun _ => 0) 1 0 (le_refl 1) (by norm_num)).1
    (fun k hk1 hk2 => absurd hk2 (by omega)) rfl

/-- Claim C10: when `AutoTimer.auto` aborts because the target raised it
returns immediately: on a probe-phase failure the repeat collaborator is
never called, the return value is the sentinel, and every output line is a
probe line or the diagnostic (in particular no raw-times line and no summary
line); on a repeat-phase failure likewise no raw-times and no summary line
is printed; and the summary line appears in the output iff the probe phase
completed and the repeat call returned — i.e. iff no trial raised.  The
hypothesis `hne` restricts to environments where a completed `self.repeat`
returns one total per trial (nonempty), as `timeit.Timer.repeat` does for
`repeat ≥ 1`. -/
theorem auto_failure_frame (env : AutoEnv) (repCount : ℕ) (v : Bool) (p : ℕ)
    (hne : ∀ n r, env.repeatFn repCount n = .ok r → r ≠ []) :
    ((probePhase env v p).result = none →
      (auto env repCount v p).repeatCalls = [] ∧
      (auto env repCount v p).ret = 1 ∧
      ∀ e ∈ (auto env repCount v p).output,
        (∃ a b c, e = AutoEvent.probeLine a b c) ∨ e = AutoEvent.diagnostic) ∧
    (∀ n, (probePhase env v p).result = some n →
      env.repeatFn repCount n = .error () →
      ∀ e ∈ (auto env repCount v p).output,
        (∃ a b c, e = AutoEvent.probeLine a b c) ∨ e = AutoEvent.diagnostic) ∧
    ((∃ a b c d u, AutoEvent.summary a b c d u ∈ (auto env repCount v p).output) ↔
      ∃ n r, (probePhase env v p).result = some n ∧
        env.repeatFn repCount n = .ok r) := by
  refine ⟨?_, ?_, ?_⟩
  · intro hres
    rw [auto_eq_none env repCount v p hres]
    exact ⟨rfl, rfl, fun e he => probeAux_output_events env v p 9 1 0 e he⟩
  · intro n hres hre e he
    rw [auto_eq_error env repCount v p n hres hre] at he
    rcases List.mem_append.mp he with he | he
    · exact probeAux_output_events env v p 9 1 0 e he
    · exact Or.inr (List.mem_singleton.mp he)
  · constructor
    · rintro ⟨a, b, c, d, u, hmem⟩
      cases hres : (probePhase env v p).result with
      | none =>
          rw [auto_eq_none env repCount v p hres] at hmem
          rcases probeAux_output_events env v p 9 1 0 _ hmem with ⟨x, y, z, hxyz⟩ | hd
          · exact absurd hxyz (by simp)
          · exact absurd hd (by simp)
      | some n =>
          cases hrf : env.repeatFn repCount n with
          | error uu =>
              cases uu
              rw [auto_eq_error env repCount v p n hres hrf] at hmem
              rcases List.mem_append.mp hmem with hmem | hmem
              · rcases probeAux_output_events env v p 9 1 0 _ hmem with ⟨x, y, z, hxyz⟩ | hd
                · exact absurd hxyz (by simp)
                · exact absurd hd (by simp)
              · exact absurd (List.mem_singleton.mp hmem) (by simp)
          | ok r => exact ⟨n, r, rfl, hrf⟩
    · rintro ⟨n, r, hres, hrf⟩
      refine ⟨n, repCount, p, (format_timing (listMin r) (n : ℚ)).1,
        (format_timing (listMin r) (n : ℚ)).2, ?_⟩
      rw [auto_eq_ok env repCount v p n r hres hrf]
      exact List.mem_append_right _ (List.mem_singleton.mpr rfl)

/-- Concrete instance of `auto_failure_frame`: with every repeat trial
raising, no summary line is printed. -/
theorem auto_failure_frame_witness :
    (∃ a b c d u, AutoEvent.summary a b c d u ∈ (auto envTrialRaise 3 true 3).output) ↔
      ∃ n r, (probePhase envTrialRaise true 3).result = some n ∧
        envTrialRaise.repeatFn 3 n = .ok r :=
  (auto_failure_frame envTrialRaise 3 true 3
    (fun n r h => by simp [envTrialRaise] at h)).2.2
